import Mathlib

set_option maxRecDepth 4000

/-!
A shallow embedding of the command-line interpretation and execution core of
MyPythonShell.py: the tokenizer (`tokenize`), the pipeline splitter
(`split_pipeline`), the redirection scan (`scanOne`, `parseAlloc`), the
builtin `exit` (`cmd_exit_raises`), and the executor
(`run_single_command`, `run_pipeline`) as an explicit-state function that
threads the process-wide default streams and records a trace of dispatch,
error and close events.  Machine-level effects (actual file contents, real
processes) are abstracted: opening a file always succeeds and yields a
`Handle.file` with a fresh identifier, a spawned process is a `dispatch`
event, and what a builtin writes to its output stream is an oracle
(`Params.emits`).  Python exceptions are modelled explicitly where they
matter: the bare `except:` in `cmd_exit`, the `try/except Exception/finally`
around builtin invocations, and propagation of `SystemExit`.
-/

/-! ### Characters used by the tokenizer -/

def squote : Char := Char.ofNat 39

def dquote : Char := Char.ofNat 34

def bslash : Char := Char.ofNat 92

def bquote : Char := Char.ofNat 96

def nlchar : Char := Char.ofNat 10

/-! ### Tokenizer (CommandParser.tokenize)

The Python loop walks the line with an index `i`, the flags `in_single`,
`in_double`, a current-token accumulator `cur` (a string built by `+=`) and
the output list `args` (appended only when `cur` is nonempty).  We model the
line and `cur` as `List Char` and the modes as an inductive. -/

inductive QMode
  | normal
  | single
  | double
deriving DecidableEq, Repr

/-- End of the loop: `if cur: args.append(cur)`. -/
def finishTok (cur : List Char) (args : List String) : List String :=
  if cur.isEmpty then args else args ++ [String.mk cur]

def tokenizeAux : QMode → List Char → List String → List Char → List String
  | _, cur, args, [] => finishTok cur args
  | QMode.single, cur, args, c :: rest =>
    if c = squote then tokenizeAux QMode.normal cur args rest
    else tokenizeAux QMode.single (cur ++ [c]) args rest
  | QMode.double, cur, args, c :: rest =>
    if c = dquote then tokenizeAux QMode.normal cur args rest
    else if c = bslash then
      match rest with
      | [] => finishTok (cur ++ [bslash]) args
      | nxt :: rest2 =>
        if nxt = dquote ∨ nxt = bslash ∨ nxt = '$' ∨ nxt = bquote ∨ nxt = nlchar then
          tokenizeAux QMode.double (cur ++ [nxt]) args rest2
        else tokenizeAux QMode.double (cur ++ [bslash]) args (nxt :: rest2)
    else tokenizeAux QMode.double (cur ++ [c]) args rest
  | QMode.normal, cur, args, c :: rest =>
    if c = squote then tokenizeAux QMode.single cur args rest
    else if c = dquote then tokenizeAux QMode.double cur args rest
    else if c = bslash then
      match rest with
      | [] => finishTok cur args
      | nxt :: rest2 => tokenizeAux QMode.normal (cur ++ [nxt]) args rest2
    else if c.isWhitespace then
      if cur.isEmpty then tokenizeAux QMode.normal [] args rest
      else tokenizeAux QMode.normal [] (args ++ [String.mk cur]) rest
    else tokenizeAux QMode.normal (cur ++ [c]) args rest

def tokenize (line : List Char) : List String :=
  tokenizeAux QMode.normal [] [] line

/-! ### Pipeline splitter (CommandParser.split_pipeline) -/

def splitLoop : List (List String) → List String → List String → List (List String)
  | cmds, cur, [] => if cur.isEmpty then cmds else cmds ++ [cur]
  | cmds, cur, t :: rest =>
    if t = "|" then
      if cur.isEmpty then splitLoop cmds [] rest
      else splitLoop (cmds ++ [cur]) [] rest
    else splitLoop cmds (cur ++ [t]) rest

def split_pipeline (tokens : List String) : Option (List (List String)) :=
  if tokens.contains "|" then some (splitLoop [] [] tokens) else none

/-- Specification-side partition of a token list at every token equal to
the pipe token, keeping empty groups (used to state what `split_pipeline`
computes; the separators themselves are discarded). -/
def pipeGroupsAll : List String → List (List String)
  | [] => [[]]
  | t :: rest =>
    match pipeGroupsAll rest with
    | [] => []
    | g :: gs => if t = "|" then [] :: g :: gs else (t :: g) :: gs

/-- Specification-side groups: the partition with empty groups dropped. -/
def pipeGroups (ts : List String) : List (List String) :=
  (pipeGroupsAll ts).filter (fun g => !g.isEmpty)

/-! ### Redirection scan (Executor.parse_redirections, token part)

Python scans a tuple of operator spellings in order; for the first spelling
present in the token list it takes the first index of that spelling, and if
a path token follows, opens it and deletes the operator/path pair; in every
case it then stops scanning that class (`break`). -/

def stderrOps : List String := ["2>>", "2>"]

def stdoutOps : List String := ["1>>", ">>", "1>", ">"]

/-- The append/truncate mode choice (append when the operator spelling
contains two consecutive greater-than characters). -/
def hasGtGt : List Char → Bool
  | c1 :: c2 :: rest => (c1 = '>' && c2 = '>') || hasGtGt (c2 :: rest)
  | _ => false

/-- One operator-class scan.  Returns the remaining tokens and, when a
redirection was matched, the path token together with the operator spelling
that matched. -/
def scanOne : List String → List String → List String × Option (String × String)
  | [], ts => (ts, none)
  | op :: ops, ts =>
    if ts.contains op then
      let idx := ts.indexOf op
      if idx + 1 < ts.length then
        (ts.take idx ++ ts.drop (idx + 2), some (ts.getD (idx + 1) "", op))
      else (ts, none)
    else scanOne ops ts

/-- Specification-side description of one class scan, written from the
claim: the honored operator is the first spelling (in scan order) present
at all, at its first occurrence; if a path token follows, exactly the
operator/path pair is deleted and the pair is returned; otherwise nothing
is resolved and the tokens are returned unchanged. -/
def ScanSpec (ops ts clean : List String) (res : Option (String × String)) : Prop :=
  match ops.find? (fun op => ts.contains op) with
  | none => clean = ts ∧ res = none
  | some op =>
    if ts.indexOf op + 1 < ts.length then
      clean = ts.take (ts.indexOf op) ++ ts.drop (ts.indexOf op + 2) ∧
        res = some (ts.getD (ts.indexOf op + 1) "", op)
    else clean = ts ∧ res = none

/-! ### Handles, events and executor state -/

/-- A stream handle: an inherited console stream, an opened redirection
file (with a fresh identifier, its path and append flag), a temporary
buffer bridging builtin pipeline stages, or the output pipe of a spawned
process. -/
inductive Handle
  | consoleOut
  | consoleErr
  | consoleIn
  | file (id : Nat) (path : String) (append : Bool)
  | tempBuf (id : Nat)
  | procPipe (id : Nat)
deriving DecidableEq, Repr

/-- Result of `parse_redirections`: the cleaned tokens and the opened
stdout/stderr files (`stdout_dest`/`file_out` coincide in the source, as do
`stderr_dest`/`file_err`, so one field each suffices). -/
structure ParseOut where
  clean : List String
  fileOut : Option Handle
  fileErr : Option Handle
deriving DecidableEq, Repr

/-- `Executor.parse_redirections` with handle allocation: the stderr class
is scanned (and its file opened) first, then the stdout class on the
already-cleaned list.  Opening always succeeds in the model and consumes a
fresh identifier. -/
def parseAlloc (ts : List String) (fresh : Nat) : ParseOut × Nat :=
  let errScan := scanOne stderrOps ts
  let errAlloc : Option Handle × Nat :=
    match errScan.2 with
    | some pr => (some (Handle.file fresh pr.1 (hasGtGt pr.2.data)), fresh + 1)
    | none => (none, fresh)
  let outScan := scanOne stdoutOps errScan.1
  let outAlloc : Option Handle × Nat :=
    match outScan.2 with
    | some pr => (some (Handle.file errAlloc.2 pr.1 (hasGtGt pr.2.data)), errAlloc.2 + 1)
    | none => (none, errAlloc.2)
  ({ clean := outScan.1, fileOut := outAlloc.1, fileErr := errAlloc.1 }, outAlloc.2)

/-- The fixed registry of builtin command names (BuiltinHandler.registry). -/
def builtinNames : List String :=
  ["exit", "echo", "pwd", "cd", "type", "history", "search", "ls", "cat", "grep", "wc"]

def is_builtin (name : String) : Bool := builtinNames.contains name

/-- Outcome of invoking one builtin: normal return, an `Exception` caught
by the surrounding handler, or a `SystemExit` (only `sys.exit` raises it)
that propagates. -/
inductive BOutcome
  | ok
  | exc
  | sysExit (code : Int)
deriving DecidableEq, Repr

/-- Environment oracles: executable resolution (`find_executable` depends
on the file system and PATH), what the builtin at a given stage index
writes to its output stream, and how it terminates. -/
structure Params where
  resolve : String → Option String
  emits : Nat → String
  outcome : Nat → BOutcome

/-- One dispatched command: stage index, builtin/external, name, argument
vector, and the streams it was given (for a builtin: the values of the
process-wide default streams during the invocation; for an external: the
handles passed to the spawn).  `snap` records content and read position of
the input when it is a temporary buffer, at dispatch time. -/
structure Dispatch where
  idx : Nat
  builtin : Bool
  name : String
  args : List String
  hin : Handle
  hout : Handle
  herr : Handle
  snap : Option (String × Nat)
deriving DecidableEq, Repr

inductive Event
  | dispatch (d : Dispatch)
  | reportError (dest : Handle) (msg : String)
  | closeH (h : Handle)
deriving DecidableEq, Repr

/-- Executor state: the process-wide default streams (`sys.stdout`,
`sys.stderr`, `sys.stdin`), the fresh-identifier counter, the contents and
read positions of temporary buffers, the `prev_stdin` / `to_close` locals
of `run_pipeline`, a ghost list of every redirection file and temporary
buffer opened, and the event trace. -/
structure St where
  sysStdout : Handle
  sysStderr : Handle
  sysStdin : Handle
  fresh : Nat
  bufs : List (Nat × String × Nat)
  prevStdin : Option Handle
  toClose : List Handle
  opened : List Handle
  events : List Event
deriving DecidableEq, Repr

def bufLookup (bufs : List (Nat × String × Nat)) (b : Nat) : Option (String × Nat) :=
  match bufs.find? (fun p => p.1 == b) with
  | some p => some p.2
  | none => none

/-- Writing builtin output into a temporary buffer: content replaced,
position at end of content. -/
def bufWrite : List (Nat × String × Nat) → Nat → String → List (Nat × String × Nat)
  | [], _, _ => []
  | p :: rest, b, s =>
    if p.1 = b then (p.1, s, s.length) :: rest else p :: bufWrite rest b s

/-- `temp_out.seek(0)`. -/
def bufSeek0 : List (Nat × String × Nat) → Nat → List (Nat × String × Nat)
  | [], _ => []
  | p :: rest, b =>
    if p.1 = b then (p.1, p.2.1, 0) :: rest else p :: bufSeek0 rest b

/-- Loop control for one pipeline stage: continue, `break`, or a
propagating `SystemExit`. -/
inductive Ctl
  | cont
  | brk
  | raised (code : Int)
deriving DecidableEq, Repr

def snapOf (s : St) (h : Handle) : Option (String × Nat) :=
  match h with
  | Handle.tempBuf b => bufLookup s.bufs b
  | _ => none

/-- Builtin branch of one `run_pipeline` stage: save `sys.stdin`, rebind it
to `prev_stdin` if any; save `sys.stdout`; if not last, allocate a fresh
temporary buffer and rebind `sys.stdout` to it, else rebind to the resolved
stdout file if any; invoke (recording the dispatch and writing the oracle
content to the buffer if that is where `sys.stdout` points); `except
Exception` reports to the current `sys.stderr`; `finally` restores both
saved streams; a `SystemExit` then propagates, otherwise the buffer is
rewound, becomes `prev_stdin` and is scheduled for closing. -/
def builtinStep (P : Params) (s : St) (idx : Nat) (isLast : Bool)
    (clean : List String) (fout : Option Handle) : St × Ctl :=
  let oldStdin := s.sysStdin
  let s1 :=
    match s.prevStdin with
    | some h => { s with sysStdin := h }
    | none => s
  let oldStdout := s1.sysStdout
  let alloc : St × Option Nat :=
    if isLast then
      match fout with
      | some h => ({ s1 with sysStdout := h }, none)
      | none => (s1, none)
    else
      ({ s1 with fresh := s1.fresh + 1,
                 bufs := s1.bufs ++ [(s1.fresh, "", 0)],
                 opened := s1.opened ++ [Handle.tempBuf s1.fresh],
                 sysStdout := Handle.tempBuf s1.fresh }, some s1.fresh)
  let s2 := alloc.1
  let d : Dispatch :=
    { idx := idx, builtin := true, name := clean.headD "", args := clean.tail,
      hin := s2.sysStdin, hout := s2.sysStdout, herr := s2.sysStderr,
      snap := snapOf s2 s2.sysStdin }
  let s3 :=
    { s2 with events := s2.events ++ [Event.dispatch d],
              bufs :=
                match s2.sysStdout with
                | Handle.tempBuf b => bufWrite s2.bufs b (P.emits idx)
                | _ => s2.bufs }
  let s4 :=
    match P.outcome idx with
    | BOutcome.exc =>
      { s3 with events := s3.events ++ [Event.reportError s3.sysStderr "Pipeline error"] }
    | _ => s3
  let s5 := { s4 with sysStdout := oldStdout, sysStdin := oldStdin }
  match P.outcome idx with
  | BOutcome.sysExit n => (s5, Ctl.raised n)
  | _ =>
    if isLast then ({ s5 with prevStdin := none }, Ctl.cont)
    else
      match alloc.2 with
      | some tid =>
        ({ s5 with bufs := bufSeek0 s5.bufs tid,
                   prevStdin := some (Handle.tempBuf tid),
                   toClose := s5.toClose ++ [Handle.tempBuf tid] }, Ctl.cont)
      | none => (s5, Ctl.cont)

/-- External branch of one `run_pipeline` stage: unresolvable names report
`command not found` and `break`; otherwise the process is spawned with
`stdin = prev_stdin` (inherited console when absent), `stdout` a fresh pipe
when not last (else the resolved file or inherited console), and `stderr`
the resolved stderr file or inherited console.  Non-last stages hand their
output pipe to the next stage. -/
def spawnStep (P : Params) (s : St) (idx : Nat) (isLast : Bool)
    (clean : List String) (fout ferr : Option Handle) : St × Ctl :=
  match P.resolve (clean.headD "") with
  | none =>
    ({ s with events :=
        s.events ++ [Event.reportError s.sysStderr (clean.headD "" ++ ": command not found")] },
      Ctl.brk)
  | some _ =>
    if isLast then
      let d : Dispatch :=
        { idx := idx, builtin := false, name := clean.headD "", args := clean,
          hin := s.prevStdin.getD Handle.consoleIn,
          hout := fout.getD Handle.consoleOut,
          herr := ferr.getD Handle.consoleErr,
          snap := snapOf s (s.prevStdin.getD Handle.consoleIn) }
      ({ s with events := s.events ++ [Event.dispatch d] }, Ctl.cont)
    else
      let d : Dispatch :=
        { idx := idx, builtin := false, name := clean.headD "", args := clean,
          hin := s.prevStdin.getD Handle.consoleIn,
          hout := Handle.procPipe s.fresh,
          herr := ferr.getD Handle.consoleErr,
          snap := snapOf s (s.prevStdin.getD Handle.consoleIn) }
      ({ s with fresh := s.fresh + 1,
                events := s.events ++ [Event.dispatch d],
                prevStdin := some (Handle.procPipe s.fresh) }, Ctl.cont)

/-- One iteration of the `run_pipeline` loop: parse the redirections of
this stage (opening files), `break` on an empty command, append the
opened files to `to_close`, then dispatch by the builtin predicate. -/
def stepStage (P : Params) (s : St) (idx : Nat) (isLast : Bool)
    (toks : List String) : St × Ctl :=
  let pr := parseAlloc toks s.fresh
  let po := pr.1
  let s1 := { s with fresh := pr.2,
                     opened := s.opened ++ po.fileOut.toList ++ po.fileErr.toList }
  if po.clean.isEmpty then (s1, Ctl.brk)
  else
    let s2 := { s1 with toClose := s1.toClose ++ po.fileOut.toList ++ po.fileErr.toList }
    if is_builtin (po.clean.headD "") then
      builtinStep P s2 idx isLast po.clean po.fileOut
    else
      spawnStep P s2 idx isLast po.clean po.fileOut po.fileErr

/-- The stage loop.  A `SystemExit` propagates as `some code`. -/
def runStages (P : Params) : St → Nat → List (List String) → St × Option Int
  | s, _, [] => (s, none)
  | s, idx, c :: rest =>
    match stepStage P s idx rest.isEmpty c with
    | (s2, Ctl.cont) => runStages P s2 (idx + 1) rest
    | (s2, Ctl.brk) => (s2, none)
    | (s2, Ctl.raised n) => (s2, some n)

/-- `Executor.run_pipeline`: fresh `prev_stdin`/`to_close` locals, the
stage loop, then the final cleanup closing every handle in `to_close`
(skipped when a `SystemExit` propagates, as in the source). -/
def run_pipeline (P : Params) (s0 : St) (cmds : List (List String)) : St × Option Int :=
  if cmds.isEmpty then (s0, none)
  else
    let s := { s0 with prevStdin := none, toClose := [] }
    match runStages P s 0 cmds with
    | (s1, some n) => (s1, some n)
    | (s1, none) => ({ s1 with events := s1.events ++ s1.toClose.map Event.closeH }, none)

/-- Result of `run_single_command`: normal return, a propagating
`SystemExit`, or the uncaught `IndexError` of `tokens[0]` on an empty
cleaned token list. -/
inductive SRes
  | ok
  | raised (code : Int)
  | ixError
deriving DecidableEq, Repr

def closeBoth (s : St) (po : ParseOut) : St :=
  { s with events := s.events ++ po.fileOut.toList.map Event.closeH
                               ++ po.fileErr.toList.map Event.closeH }

/-- `Executor.run_single_command`: parse redirections; for a builtin, save
`sys.stdout`/`sys.stderr`, rebind each to its resolved file if any, invoke
(`except Exception` reports to the current, possibly redirected,
`sys.stderr`), restore both in `finally`; for an external, resolve the
executable and spawn it with the resolved streams (stdin inherited).  The
two opened files are closed at the end (skipped if `SystemExit` or
`IndexError` propagates). -/
def run_single_command (P : Params) (s0 : St) (toks : List String) : St × SRes :=
  if toks.isEmpty then (s0, SRes.ok)
  else
    let pr := parseAlloc toks s0.fresh
    let po := pr.1
    let s1 := { s0 with fresh := pr.2,
                        opened := s0.opened ++ po.fileOut.toList ++ po.fileErr.toList }
    match po.clean with
    | [] => (s1, SRes.ixError)
    | cmd :: rest =>
      if is_builtin cmd then
        let oldOut := s1.sysStdout
        let oldErr := s1.sysStderr
        let s2 :=
          match po.fileOut with
          | some h => { s1 with sysStdout := h }
          | none => s1
        let s3 :=
          match po.fileErr with
          | some h => { s2 with sysStderr := h }
          | none => s2
        let d : Dispatch :=
          { idx := 0, builtin := true, name := cmd, args := rest,
            hin := s3.sysStdin, hout := s3.sysStdout, herr := s3.sysStderr,
            snap := snapOf s3 s3.sysStdin }
        let s4 := { s3 with events := s3.events ++ [Event.dispatch d] }
        let s5 :=
          match P.outcome 0 with
          | BOutcome.exc =>
            { s4 with events := s4.events ++ [Event.reportError s4.sysStderr "Error"] }
          | _ => s4
        let s6 := { s5 with sysStdout := oldOut, sysStderr := oldErr }
        match P.outcome 0 with
        | BOutcome.sysExit n => (s6, SRes.raised n)
        | _ => (closeBoth s6 po, SRes.ok)
      else
        match P.resolve cmd with
        | none =>
          let s2 := { s1 with events :=
            s1.events ++ [Event.reportError s1.sysStderr (cmd ++ ": command not found")] }
          (closeBoth s2 po, SRes.ok)
        | some _ =>
          let d : Dispatch :=
            { idx := 0, builtin := false, name := cmd, args := cmd :: rest,
              hin := Handle.consoleIn,
              hout := po.fileOut.getD Handle.consoleOut,
              herr := po.fileErr.getD Handle.consoleErr,
              snap := none }
          let s2 := { s1 with events := s1.events ++ [Event.dispatch d] }
          (closeBoth s2 po, SRes.ok)

/-! ### The builtin exit command (BuiltinHandler.cmd_exit) -/

/-- Python exceptions relevant to `cmd_exit`: `SystemExit` (raised by
`sys.exit`) and `ValueError` (raised by `int()` on a bad literal). -/
inductive PyExc
  | systemExit (code : Int)
  | valueError
deriving DecidableEq, Repr

def sysExitRaise (n : Int) : Except PyExc Unit := Except.error (PyExc.systemExit n)

def digitsToNat (cs : List Char) : Nat :=
  cs.foldl (fun a c => 10 * a + (c.toNat - 48)) 0

/-- Python `int(s)` on a decimal literal: optional surrounding whitespace,
optional sign, a nonempty digit run; anything else raises `ValueError`. -/
def pyInt (s : String) : Except PyExc Int :=
  let cs := (((s.data.dropWhile Char.isWhitespace).reverse.dropWhile
    Char.isWhitespace)).reverse
  match cs with
  | [] => Except.error PyExc.valueError
  | c :: rest =>
    if c = '-' then
      if !rest.isEmpty && rest.all Char.isDigit then
        Except.ok (-(digitsToNat rest : Int))
      else Except.error PyExc.valueError
    else if c = '+' then
      if !rest.isEmpty && rest.all Char.isDigit then
        Except.ok ((digitsToNat rest : Int))
      else Except.error PyExc.valueError
    else
      if (c :: rest).all Char.isDigit then
        Except.ok ((digitsToNat (c :: rest) : Int))
      else Except.error PyExc.valueError

/-- `cmd_exit` after the history save: `if not args: sys.exit(0)` and then
`try: sys.exit(int(args[0])) except: sys.exit(0)`.  The bare `except:`
catches every exception the body raises — including the `SystemExit` that
`sys.exit(int(args[0]))` itself raises on a valid numeric argument — and
answers with `sys.exit(0)`. -/
def cmd_exit_raises (args : List String) : Except PyExc Unit :=
  match args with
  | [] => sysExitRaise 0
  | a :: _ =>
    let body : Except PyExc Unit :=
      match pyInt a with
      | Except.ok n => sysExitRaise n
      | Except.error e => Except.error e
    match body with
    | Except.ok u => Except.ok u
    | Except.error _ => sysExitRaise 0

inductive ExitEvent
  | saveHistory
  | exited (code : Int)
deriving DecidableEq, Repr

/-- The observable behaviour of `cmd_exit`: history is persisted first
(`self.shell.history_manager.save()` is the first statement), then the
process terminates with the code of the propagating `SystemExit`. -/
def cmd_exit_trace (args : List String) : List ExitEvent :=
  ExitEvent.saveHistory ::
    (match cmd_exit_raises args with
     | Except.error (PyExc.systemExit n) => [ExitEvent.exited n]
     | _ => [])

/-! ### Helpers for stating the claims -/

def dispatchRecs (evs : List Event) : List Dispatch :=
  evs.filterMap (fun e =>
    match e with
    | Event.dispatch d => some d
    | _ => none)

/-- The claim-side join of a token list with single spaces. -/
def joinSpace : List String → List Char
  | [] => []
  | [t] => t.data
  | t :: ts => t.data ++ ' ' :: joinSpace ts

/-- A character that is free of quoting and escaping syntax. -/
def plainChar (c : Char) : Bool :=
  !(c = squote) && !(c = dquote) && !(c = bslash)

def sysOf (s : St) : Handle × Handle × Handle :=
  (s.sysStdout, s.sysStderr, s.sysStdin)

/-- Initial executor state: inherited console streams, nothing opened. -/
def st0 : St :=
  { sysStdout := Handle.consoleOut, sysStderr := Handle.consoleErr,
    sysStdin := Handle.consoleIn, fresh := 0, bufs := [], prevStdin := none,
    toClose := [], opened := [], events := [] }

/-- Oracle where no external executable resolves and builtins return
normally without output. -/
def Pnone : Params :=
  { resolve := fun _ => none, emits := fun _ => "", outcome := fun _ => BOutcome.ok }

/-- Oracle where every external name resolves. -/
def Pprog : Params :=
  { resolve := fun _ => some "/bin/prog", emits := fun _ => "",
    outcome := fun _ => BOutcome.ok }

def quoteFree (cs : List Char) : Bool :=
  cs.all (fun c => !(c = squote) && !(c = dquote))

/-- A token consisting only of plain, non-whitespace characters. -/
def goodTok (t : String) : Prop :=
  t.data ≠ [] ∧ ∀ c ∈ t.data, plainChar c = true ∧ c.isWhitespace = false

/-- Well-formed buffer identifiers: every temporary buffer id is below the
fresh counter. -/
def BufsWF (s : St) : Prop := ∀ p ∈ s.bufs, p.1 < s.fresh

def stqWit : St :=
  { st0 with fresh := 1, bufs := [(0, "hi", 0)],
             prevStdin := some (Handle.tempBuf 0) }

def dWit : Dispatch :=
  { idx := 0, builtin := true, name := "wc", args := [],
    hin := Handle.tempBuf 0, hout := Handle.consoleOut,
    herr := Handle.consoleErr, snap := some ("hi", 0) }

/-! ### Lemmas about the tokenizer -/

lemma no_empty_finishTok {cur : List Char} {args : List String}
    (h : "" ∉ args) : "" ∉ finishTok cur args := by
  intro hm
  unfold finishTok at hm
  split at hm
  · exact h hm
  · rename_i hcur
    rcases List.mem_append.mp hm with h1 | h1
    · exact h h1
    · have h2 : "" = String.mk cur := List.mem_singleton.mp h1
      have h3 : cur = [] := by
        have := congrArg String.data h2
        simpa using this.symm
      simp [h3] at hcur

lemma no_empty_tokenizeAux (m : QMode) (cur : List Char) (args : List String)
    (line : List Char) (h : "" ∉ args) : "" ∉ tokenizeAux m cur args line := by
  induction m, cur, args, line using tokenizeAux.induct <;>
    rw [tokenizeAux.eq_def] <;> simp_all <;>
    first
      | exact no_empty_finishTok h
      | (rename_i hcur ih
         exact ih (fun h2 => hcur (by simpa using (congrArg String.data h2).symm)))

lemma mem_finishTok_good {cur : List Char} {args : List String}
    (hcur : ∀ c ∈ cur, plainChar c = true ∧ c.isWhitespace = false)
    (hargs : ∀ t ∈ args, goodTok t) :
    ∀ t ∈ finishTok cur args, goodTok t := by
  intro t ht
  unfold finishTok at ht
  split at ht
  · exact hargs t ht
  · rename_i hne
    rcases List.mem_append.mp ht with h1 | h1
    · exact hargs t h1
    · have h2 : t = String.mk cur := List.mem_singleton.mp h1
      subst h2
      refine ⟨?_, hcur⟩
      simpa using hne

lemma tokens_plain (line : List Char) (hl : ∀ c ∈ line, plainChar c = true) :
    ∀ cur args, (∀ c ∈ cur, plainChar c = true ∧ c.isWhitespace = false) →
      (∀ t ∈ args, goodTok t) →
      ∀ t ∈ tokenizeAux QMode.normal cur args line, goodTok t := by
  induction line with
  | nil =>
    intro cur args hcur hargs t ht
    rw [tokenizeAux.eq_def] at ht
    exact mem_finishTok_good hcur hargs t ht
  | cons c rest ih =>
    intro cur args hcur hargs
    have hc := hl c (List.mem_cons_self c rest)
    have hrest : ∀ x ∈ rest, plainChar x = true :=
      fun x hx => hl x (List.mem_cons_of_mem c hx)
    obtain ⟨⟨h1, h2⟩, h3⟩ : (¬c = squote ∧ ¬c = dquote) ∧ ¬c = bslash := by
      simpa [plainChar] using hc
    rw [tokenizeAux.eq_def]
    simp only [h1, h2, h3, if_false, if_neg]
    by_cases hw : c.isWhitespace
    · simp only [hw, if_true, if_pos]
      by_cases hc0 : cur.isEmpty
      · simp only [hc0, if_true, if_pos]
        exact ih hrest [] args (by simp) hargs
      · simp only [hc0, if_false, Bool.false_eq_true, if_neg]
        exact ih hrest [] (args ++ [String.mk cur]) (by simp)
          (fun t ht => mem_finishTok_good hcur hargs t
            (by simpa [finishTok, hc0] using ht))
    · simp only [hw, if_false, Bool.false_eq_true, if_neg]
      refine ih hrest (cur ++ [c]) args ?_ hargs
      intro x hx
      rcases List.mem_append.mp hx with hx1 | hx1
      · exact hcur x hx1
      · have : x = c := List.mem_singleton.mp hx1
        subst this
        exact ⟨hc, by simpa using hw⟩

lemma tokenizeAux_plain_append (w : List Char)
    (hw : ∀ c ∈ w, plainChar c = true ∧ c.isWhitespace = false) :
    ∀ cur args rest, tokenizeAux QMode.normal cur args (w ++ rest) =
      tokenizeAux QMode.normal (cur ++ w) args rest := by
  induction w with
  | nil => intro cur args rest; simp
  | cons c w ih =>
    intro cur args rest
    obtain ⟨hc, hw0⟩ := hw c (List.mem_cons_self c w)
    obtain ⟨⟨h1, h2⟩, h3⟩ : (¬c = squote ∧ ¬c = dquote) ∧ ¬c = bslash := by
      simpa [plainChar] using hc
    have hw2 : ∀ x ∈ w, plainChar x = true ∧ x.isWhitespace = false :=
      fun x hx => hw x (List.mem_cons_of_mem c hx)
    rw [List.cons_append, tokenizeAux.eq_def]
    simp only [h1, h2, h3, hw0, if_false, Bool.false_eq_true, if_neg]
    rw [ih hw2 (cur ++ [c]) args rest, List.append_assoc]
    rfl

lemma tokenize_join (ws : List String) (hws : ∀ t ∈ ws, goodTok t) :
    ∀ args, tokenizeAux QMode.normal [] args (joinSpace ws) = args ++ ws := by
  induction ws with
  | nil => intro args; rw [joinSpace, tokenizeAux.eq_def]; simp [finishTok]
  | cons t ws ih =>
    intro args
    obtain ⟨htne, htc⟩ := hws t (List.mem_cons_self t ws)
    have hws2 : ∀ x ∈ ws, goodTok x := fun x hx => hws x (List.mem_cons_of_mem t hx)
    cases ws with
    | nil =>
      rw [show joinSpace [t] = t.data from rfl,
        show t.data = t.data ++ ([] : List Char) by simp,
        tokenizeAux_plain_append t.data htc [] args []]
      rw [tokenizeAux.eq_def]
      simp [finishTok, htne]
    | cons t2 ws2 =>
      rw [show joinSpace (t :: t2 :: ws2) = t.data ++ (' ' :: joinSpace (t2 :: ws2))
          from rfl,
        tokenizeAux_plain_append t.data htc [] args (' ' :: joinSpace (t2 :: ws2))]
      rw [tokenizeAux.eq_def]
      have hne : ¬(t.data.isEmpty = true) := by simpa using htne
      simp only [List.nil_append, hne, if_false, Bool.false_eq_true, if_neg]
      norm_num [show (' ' : Char).isWhitespace = true by decide,
        show ¬(' ' = squote) by decide, show ¬(' ' = dquote) by decide,
        show ¬(' ' = bslash) by decide]
      rw [ih hws2 (args ++ [String.mk t.data])]
      simp

/-- Claim C8, amended: tokenization is idempotent on lines free of quotes
AND backslashes (the claim said only quote-free; an unquoted backslash
escape breaks the round trip): joining the tokens of such a line with
single spaces and re-tokenizing reproduces the same token sequence. -/
theorem tokenize_idempotent_on_plain_lines (line : List Char)
    (h : ∀ c ∈ line, plainChar c = true) :
    tokenize (joinSpace (tokenize line)) = tokenize line := by
  have hgood : ∀ t ∈ tokenize line, goodTok t :=
    tokens_plain line h [] [] (by simp) (by simp)
  have h2 := tokenize_join (tokenize line) hgood []
  simpa [tokenize] using h2

/-- Claim C8, witness: the amended idempotence theorem applied to the
concrete plain line `a  bc`. -/
theorem tokenize_idempotent_witness :
    tokenize (joinSpace (tokenize ['a', ' ', ' ', 'b', 'c'])) =
      tokenize ['a', ' ', ' ', 'b', 'c'] :=
  tokenize_idempotent_on_plain_lines ['a', ' ', ' ', 'b', 'c'] (by decide)

/-- Claim C8, counterexample: the quote-free line `a\ b` (backslash
escaping the space) tokenizes to the single token `a b`; re-joining with a
space and re-tokenizing yields the two tokens `a`, `b`, so tokenization is
not idempotent on every quote-free line as claimed. -/
theorem tokenize_idempotent_cex :
    quoteFree ['a', bslash, ' ', 'b'] = true ∧
    tokenize ['a', bslash, ' ', 'b'] = ["a b"] ∧
    tokenize (joinSpace (tokenize ['a', bslash, ' ', 'b'])) = ["a", "b"] := by
  refine ⟨by decide, by decide, by decide⟩

/-- Claim C9: `tokenize` never emits an empty token (`args.append` is
guarded by `if cur:`); in particular a standalone quoted empty string
contributes no token, so `echo ` followed by two single-quote characters
tokenizes to just `[echo]` and the builtin is invoked with zero
arguments. -/
theorem tokenize_no_empty_token :
    (∀ line : List Char, (tokenize line).contains "" = false) ∧
    tokenize ['e', 'c', 'h', 'o', ' ', squote, squote] = ["echo"] ∧
    (dispatchRecs (run_single_command Pnone st0 ["echo"]).1.events).map
      (fun d => (d.name, d.args)) = [("echo", [])] := by
  refine ⟨?_, by decide, by rfl⟩
  intro line
  have h := no_empty_tokenizeAux QMode.normal [] [] line (by simp)
  exact Bool.eq_false_iff.mpr (fun hc => h (List.elem_iff.mp hc))




lemma pipeGroupsAll_ne_nil (ts : List String) : pipeGroupsAll ts ≠ [] := by
  induction ts with
  | nil => simp [pipeGroupsAll]
  | cons t rest ih =>
    rw [pipeGroupsAll]
    cases h : pipeGroupsAll rest with
    | nil => exact absurd h ih
    | cons g gs =>
      simp only [h]
      split <;> simp

lemma splitLoop_eq (ts : List String) : ∀ cmds cur g gs,
    pipeGroupsAll ts = g :: gs →
    splitLoop cmds cur ts =
      cmds ++ ((cur ++ g) :: gs).filter (fun x => !x.isEmpty) := by
  induction ts with
  | nil =>
    intro cmds cur g gs hg
    rw [pipeGroupsAll] at hg
    obtain ⟨rfl, rfl⟩ : g = [] ∧ gs = [] := by simpa using hg.symm
    rw [splitLoop]
    by_cases h : cur.isEmpty
    · have h2 : cur = [] := by simpa using h
      subst h2
      simp
    · have h2 : (!cur.isEmpty) = true := by simpa using h
      rw [if_neg (by simpa using h)]
      simp [List.filter_cons, h2]
  | cons t rest ih =>
    intro cmds cur g gs hg
    obtain ⟨g2, gs2, hg2⟩ : ∃ g2 gs2, pipeGroupsAll rest = g2 :: gs2 := by
      cases h : pipeGroupsAll rest with
      | nil => exact absurd h (pipeGroupsAll_ne_nil rest)
      | cons a b => exact ⟨a, b, rfl⟩
    have hg3 : (if t = "|" then [] :: g2 :: gs2 else (t :: g2) :: gs2) = g :: gs := by
      rw [pipeGroupsAll, hg2] at hg
      exact hg
    rw [splitLoop]
    by_cases ht : t = "|"
    · rw [if_pos ht]
      rw [if_pos ht] at hg3
      injection hg3 with e1 e2
      subst e1
      subst e2
      by_cases hc : cur.isEmpty
      · have h2 : cur = [] := by simpa using hc
        subst h2
        rw [if_pos (by simp), ih cmds [] g2 gs2 hg2]
        simp [List.filter_cons]
      · have h2 : (!cur.isEmpty) = true := by simpa using hc
        rw [if_neg (by simpa using hc), ih (cmds ++ [cur]) [] g2 gs2 hg2]
        simp [List.filter_cons, h2]
    · rw [if_neg ht]
      rw [if_neg ht] at hg3
      injection hg3 with e1 e2
      subst e1
      subst e2
      rw [ih cmds (cur ++ [t]) g2 gs2 hg2]
      simp

/-- Claim C5, amended: separator status is decided on the token value,
not on original quoting: `split_pipeline` splits exactly at tokens equal to
the pipe token (partition given by `pipeGroups`, empty groups dropped, and
no pipeline at all when no such token occurs).  A quoted pipe adjacent to
other characters ends up inside a longer token and does not split, but a
quoted standalone pipe yields the bare pipe token and splits exactly like
an unquoted one; conversely an unquoted pipe glued to other characters
(as in `a|b`) does not split. -/
theorem split_pipeline_splits_at_pipe_tokens :
    (∀ ts : List String, split_pipeline ts =
        if ts.contains "|" then some (pipeGroups ts) else none) ∧
    tokenize ['a', '|', 'b'] = ["a|b"] ∧
    split_pipeline ["a|b"] = none ∧
    tokenize [squote, '|', squote] = ["|"] ∧
    split_pipeline ["echo", "|", "b"] = some [["echo"], ["b"]] := by
  refine ⟨?_, by decide, by decide, by decide, by decide⟩
  intro ts
  rw [split_pipeline]
  by_cases h : ts.contains "|"
  · rw [if_pos h, if_pos h]
    obtain ⟨g, gs, hg⟩ : ∃ g gs, pipeGroupsAll ts = g :: gs := by
      cases h2 : pipeGroupsAll ts with
      | nil => exact absurd h2 (pipeGroupsAll_ne_nil ts)
      | cons a b => exact ⟨a, b, rfl⟩
    rw [splitLoop_eq ts [] [] g gs hg]
    rw [pipeGroups, hg]
    simp
  · rw [if_neg h, if_neg h]

/-- Claim C5, counterexample: in the line `echo` space quote pipe quote
space `b` the only pipe character is inside single quotes, yet the line
tokenizes to `[echo, |, b]` and `split_pipeline` produces the two stages
`[[echo], [b]]` — the quoted pipe does act as a pipeline separator,
refuting the claim as stated. -/
theorem split_pipeline_quoted_pipe_cex :
    tokenize ['e', 'c', 'h', 'o', ' ', squote, '|', squote, ' ', 'b'] =
      ["echo", "|", "b"] ∧
    split_pipeline (tokenize ['e', 'c', 'h', 'o', ' ', squote, '|', squote, ' ', 'b']) =
      some [["echo"], ["b"]] := by
  refine ⟨by decide, by decide⟩

lemma scanOne_meets_spec (ops ts : List String) :
    ScanSpec ops ts (scanOne ops ts).1 (scanOne ops ts).2 := by
  induction ops with
  | nil => simp [scanOne, ScanSpec]
  | cons op rest ih =>
    by_cases h : ts.contains op
    · rw [ScanSpec, List.find?_cons_of_pos _ h]
      rw [scanOne]
      simp only [h, if_true, if_pos]
      split <;> exact ⟨rfl, rfl⟩
    · rw [ScanSpec, List.find?_cons_of_neg _ (by simpa using h)]
      rw [scanOne]
      simp only [h, Bool.false_eq_true, if_false, if_neg]
      exact ih

/-- Claim C6: the stderr operator class (`2>>` then `2>`) is resolved on
the original token list and the stdout class (`1>>`, `>>`, `1>`, `>`) on
the stderr-cleaned list; each class honors at most one redirection — the
first occurrence found by the scan, i.e. the first spelling in scan order
that occurs at all, at its first index (`ScanSpec`) — the matched
operator/path pair alone is deleted (`take idx ++ drop (idx + 2)`, leaving
every other token, including other same-class operators, untouched), and
the cleaned tokens of `parseAlloc` are exactly the result of the two
scans. -/
theorem parse_redirections_scan_order :
    ∀ (ts : List String) (f : Nat),
      ScanSpec stderrOps ts (scanOne stderrOps ts).1 (scanOne stderrOps ts).2 ∧
      ScanSpec stdoutOps (scanOne stderrOps ts).1
        (scanOne stdoutOps (scanOne stderrOps ts).1).1
        (scanOne stdoutOps (scanOne stderrOps ts).1).2 ∧
      (parseAlloc ts f).1.clean = (scanOne stdoutOps (scanOne stderrOps ts).1).1 ∧
      (parseAlloc ts f).1.fileErr =
        (match (scanOne stderrOps ts).2 with
         | some pr => some (Handle.file f pr.1 (hasGtGt pr.2.data))
         | none => none) :=
  fun ts f => ⟨scanOne_meets_spec stderrOps ts,
    scanOne_meets_spec stdoutOps (scanOne stderrOps ts).1, rfl,
    by cases h : (scanOne stderrOps ts).2 <;> simp [parseAlloc, h]⟩

lemma scanOne_last_none (ops ts : List String) (op : String)
    (hf : ops.find? (fun o => ts.contains o) = some op)
    (hl : ¬(ts.indexOf op + 1 < ts.length)) :
    scanOne ops ts = (ts, none) := by
  have hs := scanOne_meets_spec ops ts
  rw [ScanSpec, hf] at hs
  simp only [if_neg hl] at hs
  obtain ⟨h1, h2⟩ := hs
  rw [Prod.ext_iff]
  exact ⟨h1, h2⟩

/-- Claim C10, amended: when the first-found operator of a class is the
last token (no path follows), that class resolves nothing — no file is
opened for it and no error is reported — and the operator survives in the
returned token list UNLESS the other class consumes it as its path token
(the amendment the counterexample forces): for the stderr class the
operator either remains in the cleaned tokens or becomes the stdout
redirection path; for the stdout class (scanned last) it always
remains. -/
theorem trailing_redir_op_passthrough :
    (∀ ts op, stderrOps.find? (fun o => ts.contains o) = some op →
      ¬(ts.indexOf op + 1 < ts.length) →
      ∀ f, (parseAlloc ts f).1.fileErr = none ∧
        (op ∈ (parseAlloc ts f).1.clean ∨
          ∃ m, (parseAlloc ts f).1.fileOut = some (Handle.file f op m))) ∧
    (∀ ts op, stdoutOps.find? (fun o => (scanOne stderrOps ts).1.contains o) = some op →
      ¬((scanOne stderrOps ts).1.indexOf op + 1 < (scanOne stderrOps ts).1.length) →
      ∀ f, (parseAlloc ts f).1.fileOut = none ∧ op ∈ (parseAlloc ts f).1.clean) := by
  constructor
  · intro ts op hf hl f
    have hscan : scanOne stderrOps ts = (ts, none) := scanOne_last_none _ _ _ hf hl
    have hp : (fun o => ts.contains o) op = true := List.find?_some hf
    have hop : op ∈ ts := List.elem_iff.mp (by simpa using hp)
    have hk : ts.indexOf op < ts.length := List.indexOf_lt_length.mpr hop
    have hout := scanOne_meets_spec stdoutOps ts
    refine ⟨by simp [parseAlloc, hscan], ?_⟩
    rcases hfind : stdoutOps.find? (fun o => ts.contains o) with _ | op2
    · rw [ScanSpec, hfind] at hout
      left
      have hc : (parseAlloc ts f).1.clean = ts := by simp [parseAlloc, hscan, hout.1]
      rw [hc]
      exact hop
    · rw [ScanSpec, hfind] at hout
      by_cases hlt : ts.indexOf op2 + 1 < ts.length
      · simp only [if_pos hlt] at hout
        obtain ⟨hcl, hres⟩ := hout
        by_cases heq : ts.indexOf op2 + 1 = ts.indexOf op
        · right
          refine ⟨hasGtGt op2.data, ?_⟩
          have hpath : ts.getD (ts.indexOf op2 + 1) "" = op := by
            rw [heq, List.getD_eq_getElem ts "" hk, List.getElem_indexOf hk]
          simp [parseAlloc, hscan, hres]
          simpa using hpath
        · left
          have h2 : ts.indexOf op2 + 2 ≤ ts.indexOf op := by omega
          have hcleq : (parseAlloc ts f).1.clean =
              ts.take (ts.indexOf op2) ++ ts.drop (ts.indexOf op2 + 2) := by
            simp [parseAlloc, hscan, hcl]
          rw [hcleq]
          apply List.mem_append_right
          have hk2 : ts.indexOf op - (ts.indexOf op2 + 2) <
              (ts.drop (ts.indexOf op2 + 2)).length := by
            rw [List.length_drop]
            omega
          have hge : (ts.drop (ts.indexOf op2 + 2)).get
              ⟨ts.indexOf op - (ts.indexOf op2 + 2), hk2⟩ =
                ts.get ⟨ts.indexOf op, hk⟩ := by
            simp only [List.get_eq_getElem, List.getElem_drop]
            congr 1
            omega
          have hop2 : op = ts.get ⟨ts.indexOf op, hk⟩ := by
            simp only [List.get_eq_getElem]
            exact (List.getElem_indexOf hk).symm
          rw [hop2, ← hge]
          exact List.get_mem _ _ _
      · simp only [if_neg hlt] at hout
        left
        have hc : (parseAlloc ts f).1.clean = ts := by simp [parseAlloc, hscan, hout.1]
        rw [hc]
        exact hop
  · intro ts op hf hl f
    have h2 := scanOne_meets_spec stdoutOps (scanOne stderrOps ts).1
    rw [ScanSpec, hf] at h2
    simp only [if_neg hl] at h2
    obtain ⟨hcl, hres⟩ := h2
    refine ⟨by simp [parseAlloc, hres], ?_⟩
    have hcleq : (parseAlloc ts f).1.clean = (scanOne stderrOps ts).1 := by
      simp [parseAlloc, hcl]
    rw [hcleq]
    have hp : (fun o => (scanOne stderrOps ts).1.contains o) op = true :=
      List.find?_some hf
    exact List.elem_iff.mp (by simpa using hp)

/-- Claim C10, counterexample: in `[a, >, 2>]` the stderr operator `2>`
is the last token (first-found of its class, no path follows), yet it is
NOT left in the returned token list: the stdout scan consumes it as the
path of `>`, so `parseAlloc` returns clean tokens `[a]` with a stdout file
named `2>` — refuting the claim that the operator is always passed through
as an ordinary argument. -/
theorem trailing_redir_op_cex :
    stderrOps.find? (fun op => (["a", ">", "2>"] : List String).contains op) =
      some "2>" ∧
    (["a", ">", "2>"] : List String).indexOf "2>" + 1 =
      (["a", ">", "2>"] : List String).length ∧
    (parseAlloc ["a", ">", "2>"] 0).1.clean = ["a"] ∧
    (parseAlloc ["a", ">", "2>"] 0).1.fileErr = none ∧
    (parseAlloc ["a", ">", "2>"] 0).1.fileOut = some (Handle.file 0 "2>" false) ∧
    (["a"] : List String).contains "2>" = false := by
  decide

/-- Claim C10, witness: the amended theorem applied to the concrete
stages `[2>]` (stderr operator last, stays in the token list) and `[>]`
(stdout operator last, stays in the token list). -/
theorem trailing_redir_op_witness :
    ((parseAlloc ["2>"] 0).1.fileErr = none ∧
      ("2>" ∈ (parseAlloc ["2>"] 0).1.clean ∨
        ∃ m, (parseAlloc ["2>"] 0).1.fileOut = some (Handle.file 0 "2>" m))) ∧
    ((parseAlloc [">"] 0).1.fileOut = none ∧ ">" ∈ (parseAlloc [">"] 0).1.clean) :=
  ⟨trailing_redir_op_passthrough.1 ["2>"] "2>" (by decide) (by decide) 0,
    trailing_redir_op_passthrough.2 [">"] ">" (by decide) (by decide) 0⟩

/-- Claim C1: `cmd_exit` persists history first and then terminates, but
the bare `except:` around `sys.exit(int(args[0]))` also catches the
`SystemExit` raised by `sys.exit` itself on a valid numeric argument and
answers `sys.exit(0)` — so the process always terminates with code 0,
contradicting the claimed `exit N` behavior: on input `exit 5` the trace is
save-history then exit with code 0, and for every argument list the
propagating exception is `SystemExit 0`. -/
theorem cmd_exit_always_exits_zero :
    cmd_exit_trace ["5"] = [ExitEvent.saveHistory, ExitEvent.exited 0] ∧
    ∀ args : List String, cmd_exit_raises args = Except.error (PyExc.systemExit 0) := by
  refine ⟨by decide, ?_⟩
  intro args
  cases args with
  | nil => rfl
  | cons a rest =>
    rw [cmd_exit_raises]
    cases h : pyInt a <;> simp [h, sysExitRaise]

lemma sysOf_builtinStep (P : Params) (s : St) (idx : Nat) (isLast : Bool)
    (clean : List String) (fout : Option Handle) :
    sysOf (builtinStep P s idx isLast clean fout).1 = sysOf s := by
  rcases s with ⟨so, se, si, fr, bf, pv, tc, opn, ev⟩
  unfold builtinStep
  cases pv <;> cases isLast <;> cases hfo : fout <;> cases h : P.outcome idx <;>
    simp [sysOf, h]

lemma sysOf_spawnStep (P : Params) (s : St) (idx : Nat) (isLast : Bool)
    (clean : List String) (fout ferr : Option Handle) :
    sysOf (spawnStep P s idx isLast clean fout ferr).1 = sysOf s := by
  rcases s with ⟨so, se, si, fr, bf, pv, tc, opn, ev⟩
  unfold spawnStep
  cases h : P.resolve (clean.headD "") <;> cases isLast <;> simp [sysOf, h]

lemma sysOf_stepStage (P : Params) (s : St) (idx : Nat) (isLast : Bool)
    (toks : List String) :
    sysOf (stepStage P s idx isLast toks).1 = sysOf s := by
  rw [stepStage]
  split
  · rcases s with ⟨so, se, si, fr, bf, pv, tc, opn, ev⟩
    simp [sysOf]
  · split
    · rw [sysOf_builtinStep]
      rcases s with ⟨so, se, si, fr, bf, pv, tc, opn, ev⟩
      simp [sysOf]
    · rw [sysOf_spawnStep]
      rcases s with ⟨so, se, si, fr, bf, pv, tc, opn, ev⟩
      simp [sysOf]

lemma sysOf_runStages (P : Params) (cmds : List (List String)) :
    ∀ (s : St) (idx : Nat), sysOf (runStages P s idx cmds).1 = sysOf s := by
  induction cmds with
  | nil => intro s idx; rfl
  | cons c rest ih =>
    intro s idx
    rw [runStages]
    cases h : stepStage P s idx rest.isEmpty c with
    | mk s2 ctl =>
      have h2 : sysOf s2 = sysOf s := by
        have := sysOf_stepStage P s idx rest.isEmpty c
        rw [h] at this
        exact this
      cases ctl with
      | cont => simpa [h2] using (ih s2 (idx + 1)).trans h2
      | brk => exact h2
      | raised n => exact h2


lemma sysOf_run_pipeline (P : Params) (s : St) (cmds : List (List String)) :
    sysOf (run_pipeline P s cmds).1 = sysOf s := by
  simp only [run_pipeline]
  split
  · rfl
  · split
    · rename_i s1 n heq
      have key := sysOf_runStages P cmds { s with prevStdin := none, toClose := [] } 0
      rw [heq] at key
      exact key
    · rename_i s1 heq
      have key := sysOf_runStages P cmds { s with prevStdin := none, toClose := [] } 0
      rw [heq] at key
      exact key


lemma sysOf_run_single_command (P : Params) (s : St) (toks : List String) :
    sysOf (run_single_command P s toks).1 = sysOf s := by
  by_cases hemp : toks.isEmpty
  · simp [run_single_command, hemp, sysOf]
  · cases hc : (parseAlloc toks s.fresh).1.clean with
    | nil => simp [run_single_command, hemp, hc, sysOf]
    | cons cmd rest =>
      by_cases hb : is_builtin cmd <;>
        cases hfo : (parseAlloc toks s.fresh).1.fileOut <;>
          cases hfe : (parseAlloc toks s.fresh).1.fileErr <;>
            cases ho : P.outcome 0 <;>
              cases hr : P.resolve cmd <;>
                simp [run_single_command, hemp, hc, hfo, hfe, ho, hr, hb,
                  sysOf, closeBoth, snapOf]

/-- Claim C3: around every builtin invocation the process-wide default
output, error and input streams are restored on every exit path — normal
return, a caught `Exception`, and a propagating `SystemExit` (the
`finally` runs first): every pipeline stage step, every `run_pipeline`,
and every `run_single_command` leaves `sys.stdout`, `sys.stderr` and
`sys.stdin` exactly as they were. -/
theorem builtin_invocation_restores_streams :
    (∀ (P : Params) (s : St) (idx : Nat) (isLast : Bool) (toks : List String),
      sysOf (stepStage P s idx isLast toks).1 = sysOf s) ∧
    (∀ (P : Params) (s : St) (cmds : List (List String)),
      sysOf (run_pipeline P s cmds).1 = sysOf s) ∧
    (∀ (P : Params) (s : St) (toks : List String),
      sysOf (run_single_command P s toks).1 = sysOf s) :=
  ⟨sysOf_stepStage, sysOf_run_pipeline, sysOf_run_single_command⟩

lemma dispatchRecs_append (a b : List Event) :
    dispatchRecs (a ++ b) = dispatchRecs a ++ dispatchRecs b := by
  simp [dispatchRecs]

/-- Claim C2, counterexample: in the pipeline `echo hi 2> e | wc` the
builtin stage `echo` is dispatched with the inherited console error stream
even though its `2>` target file was opened (and later closed), while the
same stage with an external command `prog hi 2> e | wc` is spawned with the
opened file as its error stream — the executor does not supply redirected
streams identically for builtin and external pipeline stages. -/
theorem pipeline_builtin_stderr_cex :
    ((dispatchRecs (run_pipeline Pnone st0 [["echo", "hi", "2>", "e"], ["wc"]]).1.events).head?.map
      (fun d => (d.builtin, d.herr))) = some (true, Handle.consoleErr) ∧
    (run_pipeline Pnone st0 [["echo", "hi", "2>", "e"], ["wc"]]).1.opened =
      [Handle.file 0 "e" false, Handle.tempBuf 1] ∧
    Event.closeH (Handle.file 0 "e" false) ∈
      (run_pipeline Pnone st0 [["echo", "hi", "2>", "e"], ["wc"]]).1.events ∧
    ((dispatchRecs (run_pipeline Pprog st0 [["prog", "hi", "2>", "e"], ["wc"]]).1.events).head?.map
      (fun d => (d.builtin, d.herr))) = some (false, Handle.file 0 "e" false) := by
  refine ⟨by rfl, by rfl, by decide, by rfl⟩


/-- Claim C2, amended: in `run_single_command` a builtin with a resolved
stderr target is invoked with the process error stream rebound to exactly
that file (the one new dispatch carries it), matching what an external
command receives; but in `run_pipeline` a builtin stage is always invoked
with the error stream the pipeline started with — its parsed stderr file is
opened and closed without ever being supplied to the builtin. -/
theorem builtin_stderr_symmetry_amended :
    (∀ (P : Params) (s : St) (toks : List String) (cmd : String)
        (rest : List String) (h : Handle),
      toks.isEmpty = false →
      (parseAlloc toks s.fresh).1.clean = cmd :: rest →
      is_builtin cmd = true →
      (parseAlloc toks s.fresh).1.fileErr = some h →
      (dispatchRecs (run_single_command P s toks).1.events).map
          (fun d => (d.builtin, d.herr)) =
        (dispatchRecs s.events).map (fun d => (d.builtin, d.herr)) ++ [(true, h)]) ∧
    (∀ (P : Params) (s : St) (idx : Nat) (isLast : Bool) (toks : List String)
        (d : Dispatch),
      Event.dispatch d ∈ (stepStage P s idx isLast toks).1.events →
      Event.dispatch d ∈ s.events ∨ d.builtin = false ∨ d.herr = s.sysStderr) := by
  constructor
  · intro P s toks cmd rest h hne hc hb hfe
    cases hfo : (parseAlloc toks s.fresh).1.fileOut <;>
      cases ho : P.outcome 0 <;>
        simp [run_single_command, hne, hc, hb, hfe, hfo, ho, closeBoth,
          dispatchRecs_append, dispatchRecs]
  · intro P s idx isLast toks d hd
    by_cases hemp : (parseAlloc toks s.fresh).1.clean.isEmpty
    · rw [stepStage] at hd
      simp only [hemp, if_pos, if_true] at hd
      exact Or.inl hd
    · by_cases hb : is_builtin ((parseAlloc toks s.fresh).1.clean.headD "")
      · rw [stepStage] at hd
        simp only [hemp, Bool.false_eq_true, if_false, if_neg, hb, if_pos, if_true] at hd
        rw [builtinStep.eq_def] at hd
        cases hps : s.prevStdin <;> cases isLast <;>
          cases hfo : (parseAlloc toks s.fresh).1.fileOut <;>
            cases ho : P.outcome idx <;>
              (simp only [hps, ho, hfo] at hd;
               simp [List.mem_append] at hd;
               rcases hd with hd | rfl
               · exact Or.inl hd
               · right; right; rfl)
      · rw [stepStage] at hd
        simp only [hemp, Bool.false_eq_true, if_false, if_neg, hb, if_pos, if_true] at hd
        rw [spawnStep.eq_def] at hd
        cases hr : P.resolve ((parseAlloc toks s.fresh).1.clean.headD "") <;>
          cases isLast <;>
            (simp only [hr] at hd;
             simp [List.mem_append] at hd) <;>
            (first
              | (rcases hd with hd | rfl
                 · exact Or.inl hd
                 · right; left; rfl)
              | exact Or.inl hd)

/-- Claim C2, witness: the amended theorem applied to the concrete
single command `echo 2> e` and to the concrete pipeline stage
`echo hi 2> e`. -/
theorem builtin_stderr_symmetry_witness :
    ((dispatchRecs (run_single_command Pnone st0 ["echo", "2>", "e"]).1.events).map
        (fun d => (d.builtin, d.herr)) =
      (dispatchRecs st0.events).map (fun d => (d.builtin, d.herr)) ++
        [(true, Handle.file 0 "e" false)]) ∧
    (Event.dispatch
        { idx := 0, builtin := true, name := "echo", args := ["hi"],
          hin := Handle.consoleIn, hout := Handle.tempBuf 1,
          herr := Handle.consoleErr, snap := none } ∈ st0.events ∨
      ({ idx := 0, builtin := true, name := "echo", args := ["hi"],
          hin := Handle.consoleIn, hout := Handle.tempBuf 1,
          herr := Handle.consoleErr, snap := none } : Dispatch).builtin = false ∨
      ({ idx := 0, builtin := true, name := "echo", args := ["hi"],
          hin := Handle.consoleIn, hout := Handle.tempBuf 1,
          herr := Handle.consoleErr, snap := none } : Dispatch).herr = st0.sysStderr) :=
  ⟨builtin_stderr_symmetry_amended.1 Pnone st0 ["echo", "2>", "e"] "echo" []
      (Handle.file 0 "e" false) (by decide) (by decide) (by decide) (by decide),
    builtin_stderr_symmetry_amended.2 Pnone st0 0 false ["echo", "hi", "2>", "e"]
      { idx := 0, builtin := true, name := "echo", args := ["hi"],
        hin := Handle.consoleIn, hout := Handle.tempBuf 1,
        herr := Handle.consoleErr, snap := none } (by decide)⟩

lemma parseAlloc_fresh_le (ts : List String) (f : Nat) :
    f ≤ (parseAlloc ts f).2 := by
  rw [parseAlloc]
  cases h1 : (scanOne stderrOps ts).2 <;>
    cases h2 : (scanOne stdoutOps (scanOne stderrOps ts).1).2 <;>
      simp [h1, h2] <;> omega

lemma bufLookup_notin_none (l : List (Nat × String × Nat)) (b : Nat)
    (h : ∀ p ∈ l, p.1 ≠ b) : bufLookup l b = none := by
  induction l with
  | nil => rfl
  | cons q l ih =>
    have hq : q.1 ≠ b := h q (List.mem_cons_self q l)
    rw [bufLookup, List.find?]
    simp only [show (q.1 == b) = false by simpa using hq]
    have := ih (fun p hp => h p (List.mem_cons_of_mem q hp))
    rw [bufLookup] at this
    exact this

lemma bufLookup_append_last (l : List (Nat × String × Nat)) (b : Nat)
    (c : String) (p : Nat) (h : ∀ q ∈ l, q.1 ≠ b) :
    bufLookup (l ++ [(b, c, p)]) b = some (c, p) := by
  induction l with
  | nil => simp [bufLookup, List.find?]
  | cons q l ih =>
    have hq : q.1 ≠ b := h q (List.mem_cons_self q l)
    rw [List.cons_append, bufLookup, List.find?]
    simp only [show (q.1 == b) = false by simpa using hq]
    have := ih (fun r hr => h r (List.mem_cons_of_mem q hr))
    rw [bufLookup] at this
    exact this

lemma bufLookup_append_left (l l2 : List (Nat × String × Nat)) (b : Nat)
    (v : String × Nat) (h : bufLookup l b = some v) :
    bufLookup (l ++ l2) b = some v := by
  induction l with
  | nil => simp [bufLookup, List.find?] at h
  | cons q l ih =>
    rw [bufLookup, List.find?] at h
    rw [List.cons_append, bufLookup, List.find?]
    cases hq : (q.1 == b) with
    | true => simpa [hq] using h
    | false =>
      simp only [hq] at h ⊢
      have h2 : bufLookup l b = some v := by rw [bufLookup]; exact h
      have := ih h2
      rw [bufLookup] at this
      exact this

lemma bufWrite_append_last (l : List (Nat × String × Nat)) (b : Nat)
    (c : String) (p : Nat) (str : String) (h : ∀ q ∈ l, q.1 ≠ b) :
    bufWrite (l ++ [(b, c, p)]) b str = l ++ [(b, str, str.length)] := by
  induction l with
  | nil => simp [bufWrite]
  | cons q l ih =>
    have hq : q.1 ≠ b := h q (List.mem_cons_self q l)
    rw [List.cons_append, bufWrite]
    simp only [if_neg hq]
    rw [ih (fun r hr => h r (List.mem_cons_of_mem q hr))]
    rfl

lemma bufSeek0_append_last (l : List (Nat × String × Nat)) (b : Nat)
    (c : String) (p : Nat) (h : ∀ q ∈ l, q.1 ≠ b) :
    bufSeek0 (l ++ [(b, c, p)]) b = l ++ [(b, c, 0)] := by
  induction l with
  | nil => simp [bufSeek0]
  | cons q l ih =>
    have hq : q.1 ≠ b := h q (List.mem_cons_self q l)
    rw [List.cons_append, bufSeek0]
    simp only [if_neg hq]
    rw [ih (fun r hr => h r (List.mem_cons_of_mem q hr))]
    rfl

lemma builtinStep_nonlast (P : Params) (s : St) (idx : Nat) (clean : List String)
    (fout : Option Handle) (hni : ∀ p ∈ s.bufs, p.1 ≠ s.fresh)
    (hct : (builtinStep P s idx false clean fout).2 = Ctl.cont) :
    (builtinStep P s idx false clean fout).1.prevStdin = some (Handle.tempBuf s.fresh) ∧
    (builtinStep P s idx false clean fout).1.bufs = s.bufs ++ [(s.fresh, P.emits idx, 0)] ∧
    (builtinStep P s idx false clean fout).1.fresh = s.fresh + 1 ∧
    Handle.tempBuf s.fresh ∈ (builtinStep P s idx false clean fout).1.toClose ∧
    (dispatchRecs (builtinStep P s idx false clean fout).1.events).map (fun d => d.hout) =
      (dispatchRecs s.events).map (fun d => d.hout) ++ [Handle.tempBuf s.fresh] := by
  cases hps : s.prevStdin <;> cases ho : P.outcome idx <;>
    first
      | (exfalso
         rw [builtinStep.eq_def] at hct
         simp [hps, ho] at hct
         done)
      | (rw [builtinStep.eq_def]
         simp [hps, ho, dispatchRecs_append, dispatchRecs,
           bufWrite_append_last s.bufs s.fresh "" 0 (P.emits idx) hni,
           bufSeek0_append_last s.bufs s.fresh (P.emits idx) (P.emits idx).length hni]
         done)

lemma stepStage_builtin_eq (P : Params) (s : St) (idx : Nat) (isLast : Bool)
    (toks : List String)
    (hne : ((parseAlloc toks s.fresh).1.clean).isEmpty = false)
    (hb : is_builtin ((parseAlloc toks s.fresh).1.clean.headD "") = true) :
    stepStage P s idx isLast toks =
      builtinStep P
        { s with fresh := (parseAlloc toks s.fresh).2,
                 opened := s.opened ++ (parseAlloc toks s.fresh).1.fileOut.toList
                   ++ (parseAlloc toks s.fresh).1.fileErr.toList,
                 toClose := s.toClose ++ (parseAlloc toks s.fresh).1.fileOut.toList
                   ++ (parseAlloc toks s.fresh).1.fileErr.toList }
        idx isLast (parseAlloc toks s.fresh).1.clean
        (parseAlloc toks s.fresh).1.fileOut := by
  rw [stepStage]
  simp only [hne, Bool.false_eq_true, if_false, if_neg, hb, if_pos, if_true]

/-- Claim C4: a builtin stage that is not last writes its output to a
freshly allocated temporary buffer (its identifier is new: it resolves to
nothing in the previous buffer table) that is rewound to position 0 after
the builtin completes, scheduled for closing, and handed to the next
iteration as `prev_stdin`; and whichever stage runs next with such a
`prev_stdin` buffer is dispatched reading exactly that buffer with its full
content at position 0 — stage input is the complete byte sequence emitted
by the previous builtin, fully written before the first read. -/
theorem pipeline_tempbuf_handoff :
    (∀ (P : Params) (s : St) (idx : Nat) (toks : List String),
      BufsWF s →
      ((parseAlloc toks s.fresh).1.clean).isEmpty = false →
      is_builtin ((parseAlloc toks s.fresh).1.clean.headD "") = true →
      (stepStage P s idx false toks).2 = Ctl.cont →
      ∃ b,
        (stepStage P s idx false toks).1.prevStdin = some (Handle.tempBuf b) ∧
        bufLookup (stepStage P s idx false toks).1.bufs b = some (P.emits idx, 0) ∧
        Handle.tempBuf b ∈ (stepStage P s idx false toks).1.toClose ∧
        bufLookup s.bufs b = none ∧
        (dispatchRecs (stepStage P s idx false toks).1.events).map (fun d => d.hout) =
          (dispatchRecs s.events).map (fun d => d.hout) ++ [Handle.tempBuf b] ∧
        BufsWF (stepStage P s idx false toks).1) ∧
    (∀ (P : Params) (s : St) (idx : Nat) (isLast : Bool) (toks : List String)
        (b : Nat) (str : String) (d : Dispatch),
      s.prevStdin = some (Handle.tempBuf b) →
      bufLookup s.bufs b = some (str, 0) →
      Event.dispatch d ∈ (stepStage P s idx isLast toks).1.events →
      Event.dispatch d ∈ s.events ∨
        (d.hin = Handle.tempBuf b ∧ d.snap = some (str, 0))) := by
  constructor
  · intro P s idx toks hwf hne hb hct
    have heq := stepStage_builtin_eq P s idx false toks hne hb
    have hle := parseAlloc_fresh_le toks s.fresh
    have hni : ∀ p ∈ s.bufs, p.1 ≠ (parseAlloc toks s.fresh).2 := by
      intro p hp
      have h1 := hwf p hp
      omega
    rw [heq] at hct
    have key := builtinStep_nonlast P
      { s with fresh := (parseAlloc toks s.fresh).2,
               opened := s.opened ++ (parseAlloc toks s.fresh).1.fileOut.toList
                 ++ (parseAlloc toks s.fresh).1.fileErr.toList,
               toClose := s.toClose ++ (parseAlloc toks s.fresh).1.fileOut.toList
                 ++ (parseAlloc toks s.fresh).1.fileErr.toList }
      idx (parseAlloc toks s.fresh).1.clean (parseAlloc toks s.fresh).1.fileOut
      hni hct
    obtain ⟨k1, k2, k3, k4, k5⟩ := key
    refine ⟨(parseAlloc toks s.fresh).2, ?_, ?_, ?_, ?_, ?_, ?_⟩
    · rw [heq]; exact k1
    · rw [heq, k2]
      exact bufLookup_append_last s.bufs _ _ _ hni
    · rw [heq]; exact k4
    · exact bufLookup_notin_none s.bufs _ hni
    · rw [heq]; exact k5
    · intro p hp
      rw [heq] at hp ⊢
      rw [k2] at hp
      rw [k3]
      rcases List.mem_append.mp hp with h1 | h1
      · have h2 := hwf p h1
        show p.1 < (parseAlloc toks s.fresh).2 + 1
        omega
      · have h2 : p = ((parseAlloc toks s.fresh).2, P.emits idx, 0) :=
          List.mem_singleton.mp h1
        subst h2
        show (parseAlloc toks s.fresh).2 < (parseAlloc toks s.fresh).2 + 1
        omega
  · intro P s idx isLast toks b str d hps hlk hd
    by_cases hemp : (parseAlloc toks s.fresh).1.clean.isEmpty
    · rw [stepStage] at hd
      simp only [hemp, if_pos, if_true] at hd
      exact Or.inl hd
    · by_cases hb : is_builtin ((parseAlloc toks s.fresh).1.clean.headD "")
      · rw [stepStage] at hd
        simp only [hemp, Bool.false_eq_true, if_false, if_neg, hb, if_pos, if_true] at hd
        rw [builtinStep.eq_def] at hd
        cases isLast <;>
          cases hfo : (parseAlloc toks s.fresh).1.fileOut <;>
            cases ho : P.outcome idx <;>
              (simp only [hps, ho, hfo] at hd;
               simp [List.mem_append] at hd;
               rcases hd with hd | rfl
               · exact Or.inl hd
               · right
                 refine ⟨rfl, ?_⟩
                 simp [snapOf]
                 first
                   | exact hlk
                   | exact bufLookup_append_left s.bufs _ b (str, 0) hlk)
      · rw [stepStage] at hd
        simp only [hemp, Bool.false_eq_true, if_false, if_neg, hb, if_pos, if_true] at hd
        rw [spawnStep.eq_def] at hd
        cases hr : P.resolve ((parseAlloc toks s.fresh).1.clean.headD "") <;>
          cases isLast <;>
            (simp only [hr, hps] at hd;
             simp [List.mem_append] at hd) <;>
            (first
              | (rcases hd with hd | rfl
                 · exact Or.inl hd
                 · right
                   refine ⟨rfl, ?_⟩
                   simp [snapOf]
                   exact hlk)
              | exact Or.inl hd)

/-- Claim C4, witness: the handoff theorem applied to the concrete
non-last builtin stage `echo hi` and to a concrete next stage `wc` reading
a buffer holding `hi` at position 0. -/
theorem pipeline_tempbuf_handoff_witness :
    (∃ b,
      (stepStage Pnone st0 0 false ["echo", "hi"]).1.prevStdin =
        some (Handle.tempBuf b) ∧
      bufLookup (stepStage Pnone st0 0 false ["echo", "hi"]).1.bufs b =
        some (Pnone.emits 0, 0) ∧
      Handle.tempBuf b ∈ (stepStage Pnone st0 0 false ["echo", "hi"]).1.toClose ∧
      bufLookup st0.bufs b = none ∧
      (dispatchRecs (stepStage Pnone st0 0 false ["echo", "hi"]).1.events).map
          (fun d => d.hout) =
        (dispatchRecs st0.events).map (fun d => d.hout) ++ [Handle.tempBuf b] ∧
      BufsWF (stepStage Pnone st0 0 false ["echo", "hi"]).1) ∧
    (Event.dispatch dWit ∈ stqWit.events ∨
      (dWit.hin = Handle.tempBuf 0 ∧ dWit.snap = some ("hi", 0))) :=
  ⟨pipeline_tempbuf_handoff.1 Pnone st0 0 ["echo", "hi"]
      (by intro p hp; simp [st0] at hp) (by decide) (by decide) (by decide),
    pipeline_tempbuf_handoff.2 Pnone stqWit 0 true ["wc"] 0 "hi" dWit
      (by decide) (by decide) (by decide)⟩

lemma mem_append_mono {α : Type} {a b : List α} (hsub : ∀ y ∈ a, y ∈ b)
    (c : List α) : ∀ x ∈ a ++ c, x ∈ b ++ c := by
  intro x hx
  rcases List.mem_append.mp hx with h | h
  · exact List.mem_append_left c (hsub x h)
  · exact List.mem_append_right b h

lemma stepStage_notfound_eq (P : Params) (s : St) (idx : Nat) (isLast : Bool)
    (toks : List String)
    (hne : ¬((parseAlloc toks s.fresh).1.clean.isEmpty = true))
    (hb : ¬(is_builtin ((parseAlloc toks s.fresh).1.clean.headD "") = true))
    (hr : P.resolve ((parseAlloc toks s.fresh).1.clean.headD "") = none) :
    stepStage P s idx isLast toks =
      ({ s with fresh := (parseAlloc toks s.fresh).2,
                opened := s.opened ++ (parseAlloc toks s.fresh).1.fileOut.toList
                  ++ (parseAlloc toks s.fresh).1.fileErr.toList,
                toClose := s.toClose ++ (parseAlloc toks s.fresh).1.fileOut.toList
                  ++ (parseAlloc toks s.fresh).1.fileErr.toList,
                events := s.events ++ [Event.reportError s.sysStderr
                  (((parseAlloc toks s.fresh).1.clean.headD "") ++ ": command not found")] },
        Ctl.brk) := by
  rw [stepStage]
  simp only [hne, Bool.false_eq_true, if_false, if_neg, hb, if_pos, if_true]
  rw [spawnStep.eq_def]
  simp only [hr]



lemma stepStage_cont_appends (P : Params) (s : St) (idx : Nat) (isLast : Bool)
    (toks : List String)
    (hct : (stepStage P s idx isLast toks).2 = Ctl.cont) :
    ∃ X, (stepStage P s idx isLast toks).1.opened = s.opened ++ X ∧
         (stepStage P s idx isLast toks).1.toClose = s.toClose ++ X := by
  by_cases hemp : (parseAlloc toks s.fresh).1.clean.isEmpty
  · exfalso
    rw [stepStage] at hct
    simp only [hemp, if_pos, if_true] at hct
    simp at hct
  · by_cases hb : is_builtin ((parseAlloc toks s.fresh).1.clean.headD "")
    · have heq := stepStage_builtin_eq P s idx isLast toks (by simpa using hemp) hb
      rw [heq] at hct ⊢
      cases hps : s.prevStdin <;> cases isLast <;>
        cases hfo : (parseAlloc toks s.fresh).1.fileOut <;>
          cases ho : P.outcome idx <;>
            first
              | (exfalso
                 rw [builtinStep.eq_def] at hct
                 simp [hps, hfo, ho] at hct
                 done)
              | (rw [builtinStep.eq_def]
                 refine ⟨(parseAlloc toks s.fresh).1.fileOut.toList
                    ++ (parseAlloc toks s.fresh).1.fileErr.toList
                    ++ [Handle.tempBuf (parseAlloc toks s.fresh).2], ?_, ?_⟩ <;>
                   simp [hps, hfo, ho, List.append_assoc]
                 done)
              | (rw [builtinStep.eq_def]
                 refine ⟨(parseAlloc toks s.fresh).1.fileOut.toList
                    ++ (parseAlloc toks s.fresh).1.fileErr.toList, ?_, ?_⟩ <;>
                   simp [hps, hfo, ho, List.append_assoc]
                 done)
    · rw [stepStage] at hct ⊢
      simp only [hemp, Bool.false_eq_true, if_false, if_neg,
        show is_builtin ((parseAlloc toks s.fresh).1.clean.headD "") = false by
          simpa using hb] at hct ⊢
      rw [spawnStep.eq_def] at hct ⊢
      cases hr : P.resolve ((parseAlloc toks s.fresh).1.clean.headD "") <;>
        cases isLast <;>
          first
            | (exfalso
               simp [hr] at hct
               done)
            | (refine ⟨(parseAlloc toks s.fresh).1.fileOut.toList
                  ++ (parseAlloc toks s.fresh).1.fileErr.toList, ?_, ?_⟩ <;>
                 simp [hr, List.append_assoc]
               done)

/-- Claim C7: when a stage command is not a builtin and does not resolve
to an executable, the stage loop reports `command not found` on the error
stream, dispatches nothing further (the only new event is the report) and
stops with a `break`, keeping the opened redirection files of the failing
stage scheduled for closing; every stage that continues keeps opened
handles inside the close list; and on normal completion `run_pipeline`
closes every handle in the close list. -/
theorem pipeline_notfound_cleanup :
    (∀ (P : Params) (s : St) (idx : Nat) (c : List String)
        (rest : List (List String)),
      ((parseAlloc c s.fresh).1.clean).isEmpty = false →
      is_builtin ((parseAlloc c s.fresh).1.clean.headD "") = false →
      P.resolve ((parseAlloc c s.fresh).1.clean.headD "") = none →
      (runStages P s idx (c :: rest)).2 = none ∧
      (runStages P s idx (c :: rest)).1.events =
        s.events ++ [Event.reportError s.sysStderr
          (((parseAlloc c s.fresh).1.clean.headD "") ++ ": command not found")] ∧
      (runStages P s idx (c :: rest)).1.toClose =
        s.toClose ++ (parseAlloc c s.fresh).1.fileOut.toList
          ++ (parseAlloc c s.fresh).1.fileErr.toList ∧
      (runStages P s idx (c :: rest)).1.opened =
        s.opened ++ (parseAlloc c s.fresh).1.fileOut.toList
          ++ (parseAlloc c s.fresh).1.fileErr.toList) ∧
    (∀ (P : Params) (s : St) (idx : Nat) (isLast : Bool) (toks : List String),
      (stepStage P s idx isLast toks).2 = Ctl.cont →
      (∀ y ∈ s.opened, y ∈ s.toClose) →
      ∀ h ∈ (stepStage P s idx isLast toks).1.opened,
        h ∈ (stepStage P s idx isLast toks).1.toClose) ∧
    (∀ (P : Params) (s : St) (cmds : List (List String)),
      cmds.isEmpty = false →
      (run_pipeline P s cmds).2 = none →
      ∀ h ∈ (run_pipeline P s cmds).1.toClose,
        Event.closeH h ∈ (run_pipeline P s cmds).1.events) := by
  refine ⟨?_, ?_, ?_⟩
  · intro P s idx c rest hne hb hr
    have hstep := stepStage_notfound_eq P s idx rest.isEmpty c
      (by rw [hne]; simp) (by rw [hb]; simp) hr
    rw [runStages, hstep]
    exact ⟨rfl, rfl, rfl, rfl⟩
  · intro P s idx isLast toks hct hsub h hm
    obtain ⟨X, hX1, hX2⟩ := stepStage_cont_appends P s idx isLast toks hct
    rw [hX1] at hm
    rw [hX2]
    exact mem_append_mono hsub X h hm
  · intro P s cmds hne hr2 h hm
    revert hr2 hm
    simp only [run_pipeline, hne, Bool.false_eq_true, if_false, if_neg]
    split
    · rename_i s1 n heq
      intro hr2
      simp at hr2
    · rename_i s1 heq
      intro hr2 hm
      exact List.mem_append_right _ (List.mem_map_of_mem Event.closeH hm)

/-- Claim C7, witness: the cleanup theorem applied to the concrete
failing stage `nope 2> e`, to a concrete continuing stage `echo > o`, and
to the concrete pipeline `echo hi | nope` whose temporary buffer is closed
by the final cleanup. -/
theorem pipeline_notfound_cleanup_witness :
    ((runStages Pnone st0 1 [["nope", "2>", "e"]]).2 = none ∧
      (runStages Pnone st0 1 [["nope", "2>", "e"]]).1.events =
        st0.events ++ [Event.reportError st0.sysStderr
          (((parseAlloc ["nope", "2>", "e"] st0.fresh).1.clean.headD "") ++
            ": command not found")] ∧
      (runStages Pnone st0 1 [["nope", "2>", "e"]]).1.toClose =
        st0.toClose ++ (parseAlloc ["nope", "2>", "e"] st0.fresh).1.fileOut.toList
          ++ (parseAlloc ["nope", "2>", "e"] st0.fresh).1.fileErr.toList ∧
      (runStages Pnone st0 1 [["nope", "2>", "e"]]).1.opened =
        st0.opened ++ (parseAlloc ["nope", "2>", "e"] st0.fresh).1.fileOut.toList
          ++ (parseAlloc ["nope", "2>", "e"] st0.fresh).1.fileErr.toList) ∧
    Handle.file 0 "o" false ∈ (stepStage Pnone st0 0 true ["echo", ">", "o"]).1.toClose ∧
    Event.closeH (Handle.tempBuf 0) ∈
      (run_pipeline Pnone st0 [["echo", "hi"], ["nope"]]).1.events :=
  ⟨pipeline_notfound_cleanup.1 Pnone st0 1 ["nope", "2>", "e"] []
      (by decide) (by decide) (by decide),
    pipeline_notfound_cleanup.2.1 Pnone st0 0 true ["echo", ">", "o"] (by decide)
      (by intro y hy; simp [st0] at hy) (Handle.file 0 "o" false) (by decide),
    pipeline_notfound_cleanup.2.2 Pnone st0 [["echo", "hi"], ["nope"]] (by decide)
      (by decide) (Handle.tempBuf 0) (by decide)⟩
